import Mathlib

/-!
Verification of the document lifecycle, trash, sharing and categorization
logic of the digi_locker repository, as a shallow embedding in Lean.

Strings are modelled by Lean `String` (a wrapper around `List Char`), and
the JavaScript string operations used by the code (single character
`split`, `includes`, the regex replacements) are implemented over the
underlying character lists.

External collaborators are modelled explicitly: the object store as a list
of (path, size) pairs, each metadata table as the list of rows owned by
the current user (every query in the code filters on the user id, and row
level security isolates users), the browser base64 encoder `btoa` as
standard base64 over Latin-1 code points, and the Gemini API call by its
possible outcomes.
-/

namespace DigiLocker

/-! ## JavaScript string primitives over character lists -/

/-- The character class `[a-zA-Z0-9]` used by `name.replace(/[^a-zA-Z0-9]/g, "_")`. -/
def jsAlnum (ch : Char) : Bool :=
  (('a' ≤ ch && ch ≤ 'z') || ('A' ≤ ch && ch ≤ 'Z') || ('0' ≤ ch && ch ≤ '9'))

/-- The regex character class `\w`, i.e. `[a-zA-Z0-9_]`. -/
def isWordChar (ch : Char) : Bool := jsAlnum ch || ch = '_'

/-- Boolean list-prefix test used to implement substring search. -/
def isPre : List Char → List Char → Bool
  | [], _ => true
  | _ :: _, [] => false
  | a :: as, b :: bs => a = b && isPre as bs

/-- Boolean substring search over character lists. -/
def hasSub (pat : List Char) : List Char → Bool
  | [] => isPre pat []
  | c :: cs => isPre pat (c :: cs) || hasSub pat cs

/-- JavaScript `s.includes(pat)`. -/
def strContains (s pat : String) : Bool := hasSub pat.data s.data

/-- JavaScript `s.split(sep)` for a single-character separator, over lists. -/
def splitCh (sep : Char) : List Char → List (List Char)
  | [] => [[]]
  | c :: cs =>
    let r := splitCh sep cs
    if c = sep then [] :: r
    else (c :: r.headI) :: r.tail

/-- JavaScript `parts.join(sep)` for a single-character separator, over lists. -/
def joinCh (sep : Char) : List (List Char) → List Char
  | [] => []
  | [x] => x
  | x :: y :: rest => x ++ sep :: joinCh sep (y :: rest)

/-- JavaScript `s.replace(/\.\w+$/, "")` over a character list: the regex
matches at the first dot that is followed only by word characters (at
least one) up to the end of the string; everything from that dot on is
removed.  If no position matches, the list is unchanged. -/
def stripExtWord : List Char → List Char
  | [] => []
  | ch :: rest =>
    if ch = '.' ∧ rest ≠ [] ∧ rest.all isWordChar then []
    else ch :: stripExtWord rest

/-- JavaScript `s.replace(/\.[^.]+$/, "")` over a character list: the regex
matches at the first dot that is followed only by non-dot characters (at
least one) up to the end of the string. -/
def stripExtDot : List Char → List Char
  | [] => []
  | ch :: rest =>
    if ch = '.' ∧ rest ≠ [] ∧ rest.all (fun c => c != '.') then []
    else ch :: stripExtDot rest

/-- JavaScript `s.replace(/_/g, " ")`. -/
def underscoresToSpaces (s : String) : String :=
  String.mk (s.data.map (fun ch => if ch = '_' then ' ' else ch))

/-- `name.replace(/[^a-zA-Z0-9]/g, "_")` from `uploadDocument`. -/
def sanitizeName (s : String) : String :=
  String.mk (s.data.map (fun ch => if jsAlnum ch then ch else '_'))

/-- JavaScript `s.split("/").pop()` (for a non-empty split result this is
the last segment; with no slash it is the whole string). -/
def lastSegment (s : String) : String :=
  String.mk ((splitCh '/' s.data).getLastD [])

/-- JavaScript `file.name.split(".").pop()`, the extension used by `uploadDocument`. -/
def extOf (fileName : String) : String :=
  String.mk ((splitCh '.' fileName.data).getLastD [])

/-- JavaScript `s.replace(/^\/+/, "")` from the fallback paths in `loadDocument`. -/
def dropLeadingSlashes (s : String) : String :=
  String.mk (s.data.dropWhile (fun ch => ch = '/'))

/-! ## The browser `btoa` encoder (standard base64 over Latin-1) -/

def b64Alphabet : List Char :=
  "ABCDEFGHIJKLMNOPQRSTUVWXYZabcdefghijklmnopqrstuvwxyz0123456789+/".data

def b64Char (n : Nat) : Char := b64Alphabet.getD n 'A'

/-- Base64-encode a list of byte values, three bytes at a time. -/
def b64Chunks : List Nat → List Char
  | [] => []
  | [a] => [b64Char (a / 4), b64Char (a % 4 * 16), '=', '=']
  | [a, b] => [b64Char (a / 4), b64Char (a % 4 * 16 + b / 16), b64Char (b % 16 * 4), '=']
  | a :: b :: c :: rest =>
    b64Char (a / 4) :: b64Char (a % 4 * 16 + b / 16) ::
      b64Char (b % 16 * 4 + c / 64) :: b64Char (c % 64) :: b64Chunks rest

/-- The browser `btoa`: base64 of the code points of the string; it throws
(here: `none`) when a code point exceeds 255. -/
def btoa (s : String) : Option String :=
  if s.data.all (fun ch => ch.toNat < 256) then
    some (String.mk (b64Chunks (s.data.map Char.toNat)))
  else none

/-! ## Data model -/

/-- An object in the `documents` storage bucket: full path and size. -/
structure StorageFile where
  path : String
  size : Nat
  deriving DecidableEq, Repr

/-- One entry of a storage directory listing: bare object name and size. -/
structure ObjInfo where
  name : String
  size : Nat
  deriving DecidableEq, Repr

/-- A row of `deleted_documents` owned by the current user
(`id, user_id, document_path, document_name, deleted_at`; the user id is
implicit, every query filters on it). -/
structure DeletedRow where
  id : String
  document_path : String
  document_name : String
  deleted_at : Int
  deriving DecidableEq, Repr

/-- A row of `document_shares`
(`id, user_id, document_path, share_token, is_public, expires_at,
password_hash, allow_download, access_count`). -/
structure ShareRow where
  id : String
  user_id : String
  document_path : String
  share_token : String
  is_public : Bool
  expires_at : Option Int
  password_hash : Option String
  allow_download : Bool
  access_count : Nat
  deriving DecidableEq, Repr

/-- One element of the result of `listUserDocuments`:
`{ name, path, publicUrl, size, category }`. -/
structure DocEntry where
  name : String
  path : String
  publicUrl : String
  size : Nat
  category : String
  deriving DecidableEq, Repr

/-- One element of the result of `listUserTrash`. -/
structure TrashItem where
  id : String
  name : String
  path : String
  publicUrl : String
  size : Nat
  deletedAt : Int
  deriving DecidableEq, Repr

/-- `ShareSettings` from ShareDialog.tsx (`isPublic, expiresIn` in hours with
0 meaning no expiration, `requiresPassword, password, allowDownload`). -/
structure ShareSettings where
  isPublic : Bool
  expiresIn : Int
  requiresPassword : Bool
  password : String
  allowDownload : Bool
  deriving DecidableEq, Repr

/-- The fields of the UI `Document` object that the lifecycle and sharing
code reads.  `loadDocuments` in Index.tsx builds these from `DocEntry`
values with `id := path`; the remaining fields (upload date, formatted
size, url, mime type) are presentation only. -/
structure Document where
  id : String
  name : String
  category : String
  path : String
  deriving DecidableEq, Repr

/-- `CategorySuggestion` from geminiCategorization.ts.  The confidence, a
JavaScript number, is modelled as a rational. -/
structure CategorySuggestion where
  category : String
  confidence : ℚ
  reasoning : String
  subcategory : Option String
  deriving DecidableEq, Repr

/-! ## Model of the external object store adapter -/

/-- Model of `supabase.storage.from("documents").getPublicUrl(path)`: a URL
that embeds the object path. -/
def getPublicUrl (path : String) : String :=
  "public/" ++ path

/-- Model of `createSignedUrl(path, 3600)`: succeeds exactly when an object
with that path exists, returning a URL that embeds the path. -/
def createSignedUrl (bucket : List StorageFile) (path : String) : Option String :=
  if bucket.any (fun f => f.path == path) then some ("signed/" ++ path) else none

/-- Model of `storage.remove(paths)`: drops the named objects. -/
def removePaths (bucket : List StorageFile) (paths : List String) : List StorageFile :=
  bucket.filter (fun f => !(paths.contains f.path))

/-- Consume an expected leading run of characters, returning the rest. -/
def dropPre : List Char → List Char → Option (List Char)
  | [], l => some l
  | _ :: _, [] => none
  | a :: as, b :: bs => if a = b then dropPre as bs else none

/-- Model of the non-recursive `storage.list(dir)`: the objects whose path
is `dir ++ "/" ++ name` with a non-empty `name` containing no slash. -/
def listDir (bucket : List StorageFile) (dir : String) : List ObjInfo :=
  bucket.filterMap (fun f =>
    match dropPre (dir.data ++ ['/']) f.path.data with
    | some rest =>
      if rest ≠ [] ∧ rest.all (fun ch => ch != '/') then
        some ⟨String.mk rest, f.size⟩
      else none
    | none => none)

/-! ## Document lifecycle operations (supabaseClient part of Index.tsx) -/

/-- The file-name component `{timestamp}_{category}_{sanitizedName}.{ext}`
of an upload path. -/
def uploadFileName (ts category safeName fileExt : String) : String :=
  ts ++ "_" ++ category ++ "_" ++ safeName ++ "." ++ fileExt

/-- `uploadDocument(userId, file, name, category, isPrivate)`: stores the
file at `{userId}[/private]/{timestamp}_{category}_{sanitizedName}.{ext}`
(`upsert: false`, so an existing object at that path is an error) and
returns the new bucket together with the path. -/
def uploadDocument (userId fileName : String) (fileSize : Nat)
    (name category : String) ( isPrivate : Bool) (ts : String)
    (bucket : List StorageFile) : Except String (List StorageFile × String) :=
  let fileExt := extOf fileName
  let safeName := sanitizeName name
  let pre := if isPrivate then userId ++ "/private" else userId
  let filePath := pre ++ "/" ++ uploadFileName ts category safeName fileExt
  if bucket.any (fun f => f.path == filePath) then .error "upload failed"
  else .ok (bucket ++ [⟨filePath, fileSize⟩], filePath)

/-- `moveToTrash(userId, path)`: inserts a `deleted_documents` row with
`document_path := path` and `document_name` the final path segment.  The
table has `UNIQUE(user_id, document_path)`, so a second insert for the
same path fails. -/
def moveToTrash (path : String) (id : String) (now : Int)
    (deleted : List DeletedRow) : Except String (List DeletedRow) :=
  let filename := if strContains path "/" then lastSegment path else path
  if deleted.any (fun r => r.document_path == path) then .error "duplicate key"
  else .ok (deleted ++ [⟨id, path, filename, now⟩])

/-- `restoreFromTrash(userId, documentId)`: deletes the marker rows whose
id matches, scoped to the requesting user. -/
def restoreFromTrash (documentId : String) (deleted : List DeletedRow) : List DeletedRow :=
  deleted.filter (fun r => !(r.id == documentId))

/-- The body of the loop in `listUserTrash`: resolve a public URL at
`{userId}/{document_name}`, parse a display name from the stored file
name, and default the size to 0 (the marker row has no size). -/
def trashItemOf (userId : String) (row : DeletedRow) : TrashItem :=
  let parts := splitCh '_' row.document_name.data
  let displayName :=
    if 3 ≤ parts.length then
      underscoresToSpaces (String.mk (stripExtDot (joinCh '_' (parts.drop 2))))
    else row.document_name
  { id := row.id
    name := displayName
    path := row.document_path
    publicUrl := getPublicUrl (userId ++ "/" ++ row.document_name)
    size := 0
    deletedAt := row.deleted_at }

/-- `listUserTrash(userId)`: one trash item per `deleted_documents` row of
the user (the rows are given in query order). -/
def listUserTrash (userId : String) (deleted : List DeletedRow) : List TrashItem :=
  deleted.map (trashItemOf userId)

/-- `deletePermanent(userId, documentId)`: fetches the marker row by id
(`.single()` fails when there is none), removes it, then best-effort
removes the object at `{userId}/{document_name}` from storage. -/
def deletePermanent (userId documentId : String) (bucket : List StorageFile)
    (deleted : List DeletedRow) : Except String (List StorageFile × List DeletedRow) :=
  match deleted.find? (fun r => r.id == documentId) with
  | none => .error "row fetch failed"
  | some row =>
    let deletedNew := deleted.filter (fun r => !(r.id == documentId))
    let filePath := userId ++ "/" ++ row.document_name
    .ok (removePaths bucket [filePath], deletedNew)

/-- `purgeOldTrash(userId, days)`: lists the trash, selects the items with
a positive size whose deletion time is before `now - days` (in
milliseconds), and removes those paths from storage. -/
def purgeOldTrash (userId : String) (days : Int) (now : Int)
    (bucket : List StorageFile) (deleted : List DeletedRow) : List StorageFile :=
  let threshold := now - days * 24 * 60 * 60 * 1000
  let trash := listUserTrash userId deleted
  let toDelete := (trash.filter
    (fun t => decide (0 < t.size) && decide (t.deletedAt < threshold))).map (fun t => t.path)
  removePaths bucket toDelete

/-! ## `listUserDocuments` -/

/-- The base filter of `listUserDocuments` on a storage object: the name
contains a dot, the size is positive, and the name does not contain the
legacy `_trash_` marker. -/
def passesBase (obj : ObjInfo) : Bool :=
  strContains obj.name "." && decide (0 < obj.size) && !(strContains obj.name "_trash_")

/-- The full filter of `listUserDocuments`: the base filter plus exclusion
of names present in the deletion-marker set. -/
def passesFilter (deletedNames : List String) (obj : ObjInfo) : Bool :=
  passesBase obj && !(deletedNames.contains obj.name)

/-- The map body of `listUserDocuments`: parse
`timestamp_category_name.ext`, defaulting the category to `"other"` when
there are fewer than three underscore-separated parts, and force the
category to `"private"` for objects listed under the private prefix.  The
`path` field of the result is the bare object name. -/
def docEntryOf (userId : String) ( isPriv : Bool) (obj : ObjInfo) : DocEntry :=
  let fullPath := if isPriv then userId ++ "/private/" ++ obj.name else userId ++ "/" ++ obj.name
  let parts := splitCh '_' obj.name.data
  let category := if 3 ≤ parts.length then String.mk (parts.getD 1 []) else "other"
  let displayName :=
    if 3 ≤ parts.length then
      underscoresToSpaces (String.mk (stripExtWord (joinCh '_' (parts.drop 2))))
    else obj.name
  { name := displayName
    path := obj.name
    publicUrl := getPublicUrl fullPath
    size := obj.size
    category := if isPriv then "private" else category }

/-- The combined storage listing of `listUserDocuments`: the objects of
`{userId}/` tagged non-private followed by the objects of
`{userId}/private/` tagged private. -/
def listingAll (userId : String) (bucket : List StorageFile) : List (ObjInfo × Bool) :=
  (listDir bucket userId).map (fun o => (o, false)) ++
    (listDir bucket (userId ++ "/private")).map (fun o => (o, true))

/-- `listUserDocuments(userId)`: filter the combined listing against the
deletion markers (matching on `document_name`) and parse each survivor. -/
def listUserDocuments (userId : String) (bucket : List StorageFile)
    (deleted : List DeletedRow) : List DocEntry :=
  let deletedNames := deleted.map (fun r => r.document_name)
  ((listingAll userId bucket).filter (fun op => passesFilter deletedNames op.1)).map
    (fun op => docEntryOf userId op.2 op.1)

/-! ## Sharing subsystem -/

/-- Base URL used for generated share links in production. -/
def shareBaseUrl : String := "https://digi-locker.vercel.app"

/-- `handleShare(document, shareSettings)` from Index.tsx: reject private
documents before any insert; compute `expires_at` as now plus
`expiresIn` hours when positive, else null; encode the password with
`btoa` when password protection is requested; insert the
`document_shares` row (with `document_path` the path of the document, or
`{userId}/{name}` when the path is empty) and return the share URL.  The
result pairs the new table with the outcome; on an error the table is
returned unchanged, since the code throws before the insert. -/
def handleShare (shares : List ShareRow) (userId : String) (doc : Document)
    (st : ShareSettings) (now : Int) (token recId : String) :
    List ShareRow × Except String String :=
  if doc.category = "private" then
    (shares, .error "Private documents cannot be shared")
  else
    let expiresAt : Option Int :=
      if 0 < st.expiresIn then some (now + st.expiresIn * 60 * 60 * 1000) else none
    let pwHashOutcome : Option (Option String) :=
      if st.requiresPassword ∧ st.password ≠ "" then (btoa st.password).map some
      else some none
    match pwHashOutcome with
    | none => (shares, .error "Failed to create share link")
    | some pwHash =>
      let documentPath := if doc.path ≠ "" then doc.path else userId ++ "/" ++ doc.name
      let row : ShareRow :=
        { id := recId
          user_id := userId
          document_path := documentPath
          share_token := token
          is_public := st.isPublic
          expires_at := expiresAt
          password_hash := pwHash
          allow_download := st.allowDownload
          access_count := 0 }
      (shares ++ [row], .ok (shareBaseUrl ++ "/shared/" ++ token))

/-- The states the shared-document page can end in after resolution. -/
inductive ShareResolution where
  | notFound
  | notPublic
  | expired
  | locked (share : ShareRow)
  | resolved (share : ShareRow) (url : String)
  | fileNotFound
  deriving DecidableEq, Repr

/-- The expiry test of `loadSharedDocument`:
`shareInfo.expires_at && new Date(shareInfo.expires_at) < new Date()`. -/
def isExpired (s : ShareRow) (now : Int) : Bool :=
  match s.expires_at with
  | some t => t < now
  | none => false

/-- `loadDocument(shareInfo)` from SharedDocument.tsx: try a signed URL for
the stored path; on failure walk the alternative path list (the stored
path, the path with leading slashes stripped, and
`{user_id}/{basename}`), taking the first that succeeds. -/
def loadDocument (bucket : List StorageFile) (s : ShareRow) : ShareResolution :=
  match createSignedUrl bucket s.document_path with
  | some u => .resolved s u
  | none =>
    let alternativePaths :=
      [s.document_path,
       dropLeadingSlashes s.document_path,
       s.user_id ++ "/" ++ lastSegment s.document_path]
    match alternativePaths.findSome? (createSignedUrl bucket) with
    | some u => .resolved s u
    | none => .fileNotFound

/-- `loadSharedDocument` from SharedDocument.tsx: look the share record up
by token, then fail closed in order: not found, not public, expired,
password required (locked, without resolving the document), and only
then resolve the document. -/
def loadSharedDocument (shares : List ShareRow) (bucket : List StorageFile)
    (token : String) (now : Int) : ShareResolution :=
  match shares.find? (fun s => s.share_token == token) with
  | none => .notFound
  | some s =>
    if !s.is_public then .notPublic
    else if isExpired s now then .expired
    else if s.password_hash.isSome then .locked s
    else loadDocument bucket s

/-- `verifyPassword` from SharedDocument.tsx: with a non-empty candidate,
compare `btoa(candidate)` against the stored hash; the result says
whether the page unlocks. -/
def verifyPassword (s : ShareRow) (password : String) : Bool :=
  if password = "" then false
  else
    match btoa password with
    | none => false
    | some h => s.password_hash == some h

/-- The effect of submitting a password on the locked page: on a
successful verification `loadDocument` runs, otherwise the page stays
locked. -/
def verifyAndLoad (bucket : List StorageFile) (s : ShareRow) (password : String) :
    ShareResolution :=
  if verifyPassword s password then loadDocument bucket s else .locked s

/-- Ceiling of the rational `a / b` for a positive integer `b`, matching
`Math.ceil` on an exact division. -/
def jsCeilDiv (a b : Int) : Int := -((-a).fdiv b)

/-- `getExpirationText` from SharedDocument.tsx. -/
def getExpirationText (s : ShareRow) (now : Int) : String :=
  match s.expires_at with
  | none => "Never expires"
  | some t =>
    let diffMs := t - now
    let diffHours := jsCeilDiv diffMs (1000 * 60 * 60)
    if diffHours < 1 then "Expires soon"
    else if diffHours < 24 then "Expires in " ++ toString diffHours ++ " hours"
    else "Expires in " ++ toString (jsCeilDiv diffHours 24) ++ " days"

/-- The private branch of `handleDelete` in Index.tsx: for a document whose
category is `"private"` it calls `deletePermanent(user.id, id)` directly,
where `id` is the UI document id (which `loadDocuments` sets to the bare
storage path of the active document). -/
def handleDeletePrivate (userId : String) (doc : Document)
    (bucket : List StorageFile) (deleted : List DeletedRow) :
    Except String (List StorageFile × List DeletedRow) :=
  deletePermanent userId doc.id bucket deleted

/-- How `loadDocuments` in Index.tsx turns a `listUserDocuments` entry into
a UI document: the id is the entry path (the bare object file name). -/
def documentOfEntry (e : DocEntry) : Document :=
  { id := e.path, name := e.name, category := e.category, path := e.path }

/-! ## Categorization client (geminiCategorization.ts) -/

/-- The keys of `categoryMapping`. -/
def categoryKeys : List String :=
  ["education", "identity", "financial", "medical", "legal", "other"]

/-- The possible outcomes of the Gemini API interaction inside
`categorizeDocument`: the HTTP call fails, the response carries no text,
the text contains no JSON object, or a `CategorySuggestion` is parsed. -/
inductive GeminiOutcome where
  | httpError
  | noText
  | noJsonMatch
  | parsed (s : CategorySuggestion)
  deriving DecidableEq, Repr

/-- The validation applied to a parsed suggestion: an unknown category
becomes `"other"` with confidence `max 0.3 (confidence - 0.2)`. -/
def validateSuggestion (s : CategorySuggestion) : CategorySuggestion :=
  if categoryKeys.contains s.category then s
  else
    { category := "other"
      confidence := max (3/10 : ℚ) (s.confidence - 2/10)
      reasoning := s.reasoning ++ " (Fallback to 'other' category)"
      subcategory := s.subcategory }

/-- `fallbackCategorization(fileName)`: deterministic keyword heuristics on
the lowercased file name. -/
def fallbackCategorization (fileName : String) : CategorySuggestion :=
  let lower := String.mk (fileName.data.map Char.toLower)
  if strContains lower "semester" || strContains lower "transcript" ||
      strContains lower "certificate" || strContains lower "degree" ||
      strContains lower "result" || strContains lower "marksheet" then
    { category := "education", confidence := 7/10
      reasoning := "Filename contains education-related keywords"
      subcategory := some "academic_transcripts" }
  else if strContains lower "passport" || strContains lower "license" ||
      strContains lower "id" || strContains lower "aadhar" ||
      strContains lower "pan" then
    { category := "identity", confidence := 7/10
      reasoning := "Filename contains identity document keywords"
      subcategory := none }
  else if strContains lower "bank" || strContains lower "statement" ||
      strContains lower "tax" || strContains lower "salary" ||
      strContains lower "invoice" then
    { category := "financial", confidence := 7/10
      reasoning := "Filename contains financial document keywords"
      subcategory := none }
  else if strContains lower "medical" || strContains lower "prescription" ||
      strContains lower "report" || strContains lower "health" then
    { category := "medical", confidence := 7/10
      reasoning := "Filename contains medical document keywords"
      subcategory := none }
  else if strContains lower "contract" || strContains lower "agreement" ||
      strContains lower "legal" || strContains lower "court" then
    { category := "legal", confidence := 7/10
      reasoning := "Filename contains legal document keywords"
      subcategory := none }
  else
    { category := "other", confidence := 1/2
      reasoning := "Could not determine category from filename, defaulting to 'other'"
      subcategory := none }

/-- `categorizeDocument(fileName)`: without an API key, or on any failing
outcome of the API interaction, fall back to the local heuristics; on a
parsed response, validate the category. -/
def categorizeDocument (hasKey : Bool) (outcome : GeminiOutcome)
    (fileName : String) : CategorySuggestion :=
  if !hasKey then fallbackCategorization fileName
  else
    match outcome with
    | .parsed s => validateSuggestion s
    | _ => fallbackCategorization fileName

/-! ## Basic lemmas about the string primitives -/

theorem data_append (s t : String) : (s ++ t).data = s.data ++ t.data := rfl

theorem mk_data (s : String) : String.mk s.data = s := rfl

theorem hasSub_single (a : Char) (l : List Char) : hasSub [a] l = true ↔ a ∈ l := by
  induction l with
  | nil => simp [hasSub, isPre]
  | cons c cs ih =>
    simp only [hasSub, isPre, Bool.or_eq_true, Bool.and_eq_true, ih]
    constructor
    · rintro (⟨h, -⟩ | h)
      · exact (decide_eq_true_iff.mp h) ▸ List.mem_cons_self a cs
      · exact List.mem_cons_of_mem c h
    · intro h
      rcases List.mem_cons.mp h with h | h
      · exact Or.inl ⟨decide_eq_true_iff.mpr h, trivial⟩
      · exact Or.inr h

theorem strContains_single (s : String) (ch : Char) :
    strContains s (String.mk [ch]) = true ↔ ch ∈ s.data := by
  simpa [strContains] using hasSub_single ch s.data

theorem splitCh_ne_nil (sep : Char) (l : List Char) : splitCh sep l ≠ [] := by
  cases l with
  | nil => simp [splitCh]
  | cons c cs =>
    simp only [splitCh]
    split <;> simp

theorem splitCh_cons_sep (sep : Char) (cs : List Char) :
    splitCh sep (sep :: cs) = [] :: splitCh sep cs := by
  simp [splitCh]

theorem splitCh_cons_ne (sep c : Char) (cs : List Char) (h : c ≠ sep) :
    splitCh sep (c :: cs) =
      (c :: (splitCh sep cs).headI) :: (splitCh sep cs).tail := by
  simp [splitCh, h]

theorem splitCh_no_sep (sep : Char) (l : List Char) (h : ∀ ch ∈ l, ch ≠ sep) :
    splitCh sep l = [l] := by
  induction l with
  | nil => rfl
  | cons c cs ih =>
    have hc : c ≠ sep := h c (List.mem_cons_self c cs)
    have hcs := ih (fun ch hm => h ch (List.mem_cons_of_mem c hm))
    simp [splitCh, hc, hcs]

theorem splitCh_append_sep (sep : Char) (xs ys : List Char)
    (h : ∀ ch ∈ xs, ch ≠ sep) :
    splitCh sep (xs ++ sep :: ys) = xs :: splitCh sep ys := by
  induction xs with
  | nil => simpa using splitCh_cons_sep sep ys
  | cons c cs ih =>
    have hc : c ≠ sep := h c (List.mem_cons_self c cs)
    have h2 := ih (fun ch hm => h ch (List.mem_cons_of_mem c hm))
    simp [splitCh, hc, h2]

theorem joinCh_splitCh (sep : Char) (l : List Char) :
    joinCh sep (splitCh sep l) = l := by
  induction l with
  | nil => rfl
  | cons c cs ih =>
    by_cases hc : c = sep
    · subst hc
      rw [splitCh_cons_sep]
      obtain ⟨y, rest, hr⟩ := List.exists_cons_of_ne_nil (splitCh_ne_nil c cs)
      rw [hr] at ih ⊢
      simpa [joinCh] using ih
    · rw [splitCh_cons_ne sep c cs hc]
      obtain ⟨y, rest, hr⟩ := List.exists_cons_of_ne_nil (splitCh_ne_nil sep cs)
      rw [hr] at ih ⊢
      cases rest with
      | nil => simpa [joinCh] using ih
      | cons z rs => simpa [joinCh] using ih

theorem stripExtWord_append (xs ys : List Char) (hx : ∀ ch ∈ xs, ch ≠ '.')
    (hy : ys ≠ []) (hw : ys.all isWordChar = true) :
    stripExtWord (xs ++ '.' :: ys) = xs := by
  induction xs with
  | nil => simp [stripExtWord, hy, hw]
  | cons c cs ih =>
    have hc : c ≠ '.' := hx c (List.mem_cons_self c cs)
    have h2 := ih (fun ch hm => hx ch (List.mem_cons_of_mem c hm))
    simp [stripExtWord, hc, h2]

theorem dropPre_append (xs as bs : List Char) :
    dropPre (xs ++ as) (xs ++ bs) = dropPre as bs := by
  induction xs with
  | nil => rfl
  | cons c cs ih => simp [dropPre, ih]

theorem dropPre_self (xs ys : List Char) : dropPre xs (xs ++ ys) = some ys := by
  simpa using dropPre_append xs [] ys

theorem map_sanitize_eq_self (l : List Char)
    (h : ∀ ch ∈ l, jsAlnum ch = true ∨ ch = '_') :
    l.map (fun ch => if jsAlnum ch then ch else '_') = l := by
  induction l with
  | nil => rfl
  | cons c cs ih =>
    have h2 := ih (fun ch hm => h ch (List.mem_cons_of_mem c hm))
    rcases h c (List.mem_cons_self c cs) with h1 | h1
    · simp [h1, h2]
    · subst h1
      simp [show jsAlnum '_' = false by decide, h2]

theorem sanitizeName_eq_self (s : String)
    (h : ∀ ch ∈ s.data, jsAlnum ch = true ∨ ch = '_') :
    sanitizeName s = s := by
  unfold sanitizeName
  rw [map_sanitize_eq_self s.data h]

theorem dropLeadingSlashes_no_slash (s : String) (h : ∀ ch ∈ s.data, ch ≠ '/') :
    dropLeadingSlashes s = s := by
  unfold dropLeadingSlashes
  have : s.data.dropWhile (fun ch => ch = '/') = s.data := by
    cases hd : s.data with
    | nil => rfl
    | cons c cs =>
      have hc : c ≠ '/' := by
        have := h c
        rw [hd] at this
        exact this (List.mem_cons_self c cs)
      simp [List.dropWhile_cons, hc]
  rw [this]

theorem lastSegment_no_slash (s : String) (h : ∀ ch ∈ s.data, ch ≠ '/') :
    lastSegment s = s := by
  unfold lastSegment
  rw [splitCh_no_sep '/' s.data h]
  exact mk_data s

theorem countP_unique_id (l : List DeletedRow) (row : DeletedRow)
    (hmem : row ∈ l) (hnd : (l.map DeletedRow.id).Nodup) :
    l.countP (fun r => r.id == row.id) = 1 := by
  induction l with
  | nil => cases hmem
  | cons x xs ih =>
    rw [List.map_cons, List.nodup_cons] at hnd
    rcases List.mem_cons.mp hmem with h | h
    · subst h
      rw [List.countP_cons_of_pos _ _ (by simp)]
      have : xs.countP (fun r => r.id == row.id) = 0 := by
        rw [List.countP_eq_zero]
        intro r hr hb
        exact hnd.1 (by
          rw [beq_iff_eq] at hb
          exact hb ▸ List.mem_map_of_mem DeletedRow.id hr)
      omega
    · have hne : x.id ≠ row.id := by
        intro he
        exact hnd.1 (he ▸ List.mem_map_of_mem DeletedRow.id h)
      rw [List.countP_cons_of_neg _ _ (by simpa using hne)]
      exact ih h hnd.2

/-! ## Further structural lemmas -/

theorem loadDocument_ne_expired (bucket : List StorageFile) (s : ShareRow) :
    loadDocument bucket s ≠ ShareResolution.expired := by
  unfold loadDocument
  cases h1 : createSignedUrl bucket s.document_path with
  | some u => simp
  | none =>
    cases h2 : [s.document_path, dropLeadingSlashes s.document_path,
        s.user_id ++ "/" ++ lastSegment s.document_path].findSome?
        (createSignedUrl bucket) with
    | some u => simp [h2]
    | none => simp [h2]

theorem listDir_no_slash (bucket : List StorageFile) (dir : String) :
    ∀ o ∈ listDir bucket dir, ∀ ch ∈ o.name.data, ch ≠ '/' := by
  intro o ho
  obtain ⟨f, -, hf⟩ := List.mem_filterMap.mp ho
  cases hd : dropPre (dir.data ++ ['/']) f.path.data with
  | none => rw [hd] at hf; cases hf
  | some rest =>
    rw [hd] at hf
    have hf2 : (if rest ≠ [] ∧ (rest.all fun ch => ch != '/') = true
        then some (⟨String.mk rest, f.size⟩ : ObjInfo) else none) = some o := hf
    by_cases hcond : rest ≠ [] ∧ (rest.all fun ch => ch != '/') = true
    · rw [if_pos hcond] at hf2
      obtain rfl := Option.some.inj hf2
      intro ch hch
      have := List.all_eq_true.mp hcond.2 ch hch
      simpa using this
    · rw [if_neg hcond] at hf2
      cases hf2

/-! ## Claim C2: forced private category and the share guard -/

/-- C2: every storage object listed under the `{userId}/private/` prefix
that survives the filter is reported by `listUserDocuments` with category
`"private"` regardless of the category token embedded in its file name;
and `handleShare` on a document whose category is `"private"` fails with
the permission error before any row is inserted into `document_shares`
(the share table is returned unchanged). -/
theorem C2_private_category_share_guard :
    (∀ (userId : String) (bucket : List StorageFile) (deleted : List DeletedRow)
        (obj : ObjInfo),
      (obj, true) ∈ listingAll userId bucket →
      passesFilter (deleted.map (fun r => r.document_name)) obj = true →
      docEntryOf userId true obj ∈ listUserDocuments userId bucket deleted ∧
        (docEntryOf userId true obj).category = "private") ∧
    (∀ (shares : List ShareRow) (userId : String) (doc : Document)
        (st : ShareSettings) (now : Int) (token recId : String),
      doc.category = "private" →
      handleShare shares userId doc st now token recId =
        (shares, .error "Private documents cannot be shared")) := by
  constructor
  · intro userId bucket deleted obj hmem hpass
    constructor
    · simp only [listUserDocuments]
      exact List.mem_map_of_mem _ (List.mem_filter.mpr ⟨hmem, hpass⟩)
    · simp [docEntryOf]
  · intro shares userId doc st now token recId h
    simp [handleShare, h]

/-- Witness for C2 at a concrete private object and a concrete document. -/
theorem C2_witness :
    ((⟨"9_financial_X.pdf", 3⟩, true) ∈
        listingAll "u" [⟨"u/private/9_financial_X.pdf", 3⟩] ∧
      passesFilter (([] : List DeletedRow).map (fun r => r.document_name))
        ⟨"9_financial_X.pdf", 3⟩ = true) ∧
    (docEntryOf "u" true ⟨"9_financial_X.pdf", 3⟩ ∈
        listUserDocuments "u" [⟨"u/private/9_financial_X.pdf", 3⟩] [] ∧
      (docEntryOf "u" true ⟨"9_financial_X.pdf", 3⟩).category = "private") ∧
    handleShare [] "u" ⟨"p", "n", "private", "p"⟩ ⟨true, 0, false, "", true⟩ 0 "t" "r" =
      ([], .error "Private documents cannot be shared") := by
  refine ⟨⟨by decide, by decide⟩, ?_, ?_⟩
  · exact C2_private_category_share_guard.1 "u" [⟨"u/private/9_financial_X.pdf", 3⟩] []
      ⟨"9_financial_X.pdf", 3⟩ (by decide) (by decide)
  · exact C2_private_category_share_guard.2 [] "u" ⟨"p", "n", "private", "p"⟩
      ⟨true, 0, false, "", true⟩ 0 "t" "r" rfl

/-! ## Claim C3: expired shares resolve to the expired state -/

/-- C3: when the record found for the token has a non-null `expires_at`
earlier than the current time, `loadSharedDocument` ends in the expired
error state (for a public record; a non-public one already fails closed
at the earlier visibility check) and never produces the document content
(no resolved state with a signed URL), whatever the password hash of the
record is — the expiry check precedes the password check. -/
theorem C3_expired_share (shares : List ShareRow) (bucket : List StorageFile)
    (token : String) (now : Int) (s : ShareRow) (t : Int)
    (hfind : shares.find? (fun r => r.share_token == token) = some s)
    (hexp : s.expires_at = some t) (ht : t < now) :
    (s.is_public = true →
      loadSharedDocument shares bucket token now = .expired) ∧
    ∀ r u, loadSharedDocument shares bucket token now ≠ .resolved r u := by
  have hE : isExpired s now = true := by simp [isExpired, hexp, ht]
  constructor
  · intro hp
    simp [loadSharedDocument, hfind, hp, hE]
  · intro r u
    by_cases hp : s.is_public
    · simp [loadSharedDocument, hfind, hp, hE]
    · simp only [Bool.not_eq_true] at hp
      simp [loadSharedDocument, hfind, hp]

/-- Witness for C3 at a concrete expired, password-protected share. -/
theorem C3_witness :
    ([(⟨"i", "u", "f.pdf", "tok", true, some 10, some "aGk=", true, 0⟩ : ShareRow)].find?
        (fun r => r.share_token == "tok") =
      some ⟨"i", "u", "f.pdf", "tok", true, some 10, some "aGk=", true, 0⟩ ∧
      (10 : Int) < 50) ∧
    (loadSharedDocument [⟨"i", "u", "f.pdf", "tok", true, some 10, some "aGk=", true, 0⟩]
        [] "tok" 50 = .expired ∧
      ∀ r u, loadSharedDocument
        [⟨"i", "u", "f.pdf", "tok", true, some 10, some "aGk=", true, 0⟩]
        [] "tok" 50 ≠ .resolved r u) := by
  refine ⟨⟨by decide, by decide⟩, ?_, ?_⟩
  · exact (C3_expired_share [⟨"i", "u", "f.pdf", "tok", true, some 10, some "aGk=", true, 0⟩]
      [] "tok" 50 ⟨"i", "u", "f.pdf", "tok", true, some 10, some "aGk=", true, 0⟩ 10
      (by decide) rfl (by decide)).1 rfl
  · exact (C3_expired_share [⟨"i", "u", "f.pdf", "tok", true, some 10, some "aGk=", true, 0⟩]
      [] "tok" 50 ⟨"i", "u", "f.pdf", "tok", true, some 10, some "aGk=", true, 0⟩ 10
      (by decide) rfl (by decide)).2

/-! ## Claim C4: password-locked shares -/

/-- C4: a non-expired public share with a password hash resolves to the
locked state without a document URL; submitting a candidate whose
`btoa` encoding differs from the stored hash leaves the page locked,
and only a non-empty candidate whose encoding equals the stored hash
makes the page run the document resolution. -/
theorem C4_password_gate (shares : List ShareRow) (bucket : List StorageFile)
    (token : String) (now : Int) (s : ShareRow) (h : String)
    (hfind : shares.find? (fun r => r.share_token == token) = some s)
    (hpub : s.is_public = true) (hnexp : isExpired s now = false)
    (hpw : s.password_hash = some h) :
    loadSharedDocument shares bucket token now = .locked s ∧
    (∀ cand, btoa cand ≠ some h → verifyAndLoad bucket s cand = .locked s) ∧
    (∀ cand, cand ≠ "" → btoa cand = some h →
      verifyAndLoad bucket s cand = loadDocument bucket s) := by
  refine ⟨?_, ?_, ?_⟩
  · simp [loadSharedDocument, hfind, hpub, hnexp, hpw]
  · intro cand hne
    have hv : verifyPassword s cand = false := by
      unfold verifyPassword
      split
      · rfl
      · cases hb : btoa cand with
        | none => rfl
        | some hh =>
          have : hh ≠ h := fun he => hne (by rw [hb, he])
          simp [hpw, this.symm]
    simp [verifyAndLoad, hv]
  · intro cand hne hb
    have hv : verifyPassword s cand = true := by
      unfold verifyPassword
      rw [if_neg hne, hb]
      simp [hpw]
    simp [verifyAndLoad, hv]

/-- Witness for C4 at a concrete locked share (`btoa "hi" = "aGk="`). -/
theorem C4_witness :
    ([(⟨"i", "u", "f.pdf", "tok", true, none, some "aGk=", true, 0⟩ : ShareRow)].find?
        (fun r => r.share_token == "tok") =
      some ⟨"i", "u", "f.pdf", "tok", true, none, some "aGk=", true, 0⟩ ∧
      isExpired ⟨"i", "u", "f.pdf", "tok", true, none, some "aGk=", true, 0⟩ 50 = false ∧
      btoa "no" ≠ some "aGk=" ∧ btoa "hi" = some "aGk=") ∧
    (loadSharedDocument [⟨"i", "u", "f.pdf", "tok", true, none, some "aGk=", true, 0⟩]
        [⟨"u/f.pdf", 1⟩] "tok" 50 =
      .locked ⟨"i", "u", "f.pdf", "tok", true, none, some "aGk=", true, 0⟩ ∧
      verifyAndLoad [⟨"u/f.pdf", 1⟩]
          ⟨"i", "u", "f.pdf", "tok", true, none, some "aGk=", true, 0⟩ "no" =
        .locked ⟨"i", "u", "f.pdf", "tok", true, none, some "aGk=", true, 0⟩ ∧
      verifyAndLoad [⟨"u/f.pdf", 1⟩]
          ⟨"i", "u", "f.pdf", "tok", true, none, some "aGk=", true, 0⟩ "hi" =
        loadDocument [⟨"u/f.pdf", 1⟩]
          ⟨"i", "u", "f.pdf", "tok", true, none, some "aGk=", true, 0⟩) := by
  have hmain := C4_password_gate
    [⟨"i", "u", "f.pdf", "tok", true, none, some "aGk=", true, 0⟩] [⟨"u/f.pdf", 1⟩]
    "tok" 50 ⟨"i", "u", "f.pdf", "tok", true, none, some "aGk=", true, 0⟩ "aGk="
    (by decide) rfl rfl rfl
  exact ⟨⟨by decide, rfl, by decide, by decide⟩,
    hmain.1, hmain.2.1 "no" (by decide), hmain.2.2 "hi" (by decide) (by decide)⟩

/-! ## Claim C6: shares that never expire -/

/-- C6: creating a share with `expiresIn = 0` stores a null `expires_at`
(every row of the resulting share table is either an old row or has
`expires_at = none`), and a record with null `expires_at` is never
reported expired — neither by the expiry test for any current time, nor
by `loadSharedDocument` — and is displayed as never expiring. -/
theorem C6_zero_expiry (shares : List ShareRow) (userId : String)
    (doc : Document) (st : ShareSettings) (now : Int) (token recId : String)
    (bucket : List StorageFile) (s : ShareRow) (hz : st.expiresIn = 0) :
    (∀ r ∈ (handleShare shares userId doc st now token recId).1,
      r ∈ shares ∨ r.expires_at = none) ∧
    (s.expires_at = none →
      (∀ n : Int, isExpired s n = false) ∧
      (shares.find? (fun r => r.share_token == token) = some s →
        loadSharedDocument shares bucket token now ≠ .expired) ∧
      ∀ n : Int, getExpirationText s n = "Never expires") := by
  constructor
  · intro r hr
    unfold handleShare at hr
    by_cases hcat : doc.category = "private"
    · rw [if_pos hcat] at hr
      exact Or.inl hr
    · rw [if_neg hcat] at hr
      simp only [hz] at hr
      by_cases hpw : st.requiresPassword ∧ st.password ≠ ""
      · rw [if_pos hpw] at hr
        cases hb : btoa st.password with
        | none => rw [hb] at hr; exact Or.inl hr
        | some v =>
          rw [hb] at hr
          rcases List.mem_append.mp hr with h1 | h1
          · exact Or.inl h1
          · right
            obtain rfl := List.mem_singleton.mp h1
            simp
      · rw [if_neg hpw] at hr
        rcases List.mem_append.mp hr with h1 | h1
        · exact Or.inl h1
        · right
          obtain rfl := List.mem_singleton.mp h1
          simp
  · intro hnone
    have hiso : ∀ n : Int, isExpired s n = false := by
      intro n
      simp [isExpired, hnone]
    refine ⟨hiso, ?_, ?_⟩
    · intro hfind
      unfold loadSharedDocument
      rw [hfind]
      by_cases hp : s.is_public
      · simp only [hp, Bool.not_true, Bool.false_eq_true, if_false, hiso now]
        by_cases hq : s.password_hash.isSome
        · simp [hq]
        · simp only [Bool.false_eq_true, if_false, hq]
          exact loadDocument_ne_expired bucket s
      · simp only [Bool.not_eq_true] at hp
        simp [hp]
    · intro n
      simp [getExpirationText, hnone]

/-- Witness for C6 at a concrete zero-expiry setting and record. -/
theorem C6_witness :
    ((⟨true, 0, false, "", true⟩ : ShareSettings).expiresIn = 0 ∧
      (⟨"i", "u", "f.pdf", "tok", true, none, none, true, 0⟩ : ShareRow).expires_at
        = none) ∧
    ((∀ r ∈ (handleShare [⟨"i", "u", "f.pdf", "tok", true, none, none, true, 0⟩]
        "u" ⟨"p", "n", "financial", "p"⟩
        ⟨true, 0, false, "", true⟩ 7 "tok" "r").1,
      r ∈ [(⟨"i", "u", "f.pdf", "tok", true, none, none, true, 0⟩ : ShareRow)] ∨
        r.expires_at = none) ∧
    (∀ n : Int, isExpired ⟨"i", "u", "f.pdf", "tok", true, none, none, true, 0⟩ n
        = false) ∧
    ([(⟨"i", "u", "f.pdf", "tok", true, none, none, true, 0⟩ : ShareRow)].find?
        (fun r => r.share_token == "tok") =
          some ⟨"i", "u", "f.pdf", "tok", true, none, none, true, 0⟩ →
      loadSharedDocument [⟨"i", "u", "f.pdf", "tok", true, none, none, true, 0⟩]
        [] "tok" 7 ≠ .expired) ∧
    ∀ n : Int, getExpirationText ⟨"i", "u", "f.pdf", "tok", true, none, none, true, 0⟩ n
        = "Never expires") := by
  have hmain := C6_zero_expiry [⟨"i", "u", "f.pdf", "tok", true, none, none, true, 0⟩]
    "u" ⟨"p", "n", "financial", "p"⟩
    ⟨true, 0, false, "", true⟩ 7 "tok" "r" []
    ⟨"i", "u", "f.pdf", "tok", true, none, none, true, 0⟩ rfl
  have hrest := hmain.2 rfl
  exact ⟨⟨rfl, rfl⟩, hmain.1, hrest.1, fun _ => hrest.2.1 (by decide), hrest.2.2⟩

/-! ## Claim C8: purging old trash never removes anything -/

/-- C8: `purgeOldTrash` removes exactly the trashed paths with positive
resolved size and an old enough deletion time; since `listUserTrash`
defaults every size to 0 (the marker has no size information), that
selection is empty and the object store is left unchanged. -/
theorem C8_purge_skips_zero_size (userId : String) (days now : Int)
    (bucket : List StorageFile) (deleted : List DeletedRow) :
    (∀ t ∈ listUserTrash userId deleted, t.size = 0) ∧
    ((listUserTrash userId deleted).filter
      (fun t => decide (0 < t.size) &&
        decide (t.deletedAt < now - days * 24 * 60 * 60 * 1000)) = []) ∧
    purgeOldTrash userId days now bucket deleted = bucket := by
  have hsz : ∀ t ∈ listUserTrash userId deleted, t.size = 0 := by
    intro t ht
    obtain ⟨r, -, rfl⟩ := List.mem_map.mp ht
    rfl
  have hsel : (listUserTrash userId deleted).filter
      (fun t => decide (0 < t.size) &&
        decide (t.deletedAt < now - days * 24 * 60 * 60 * 1000)) = [] := by
    rw [List.filter_eq_nil_iff]
    intro t ht
    rw [hsz t ht]
    simp
  refine ⟨hsz, hsel, ?_⟩
  simp only [purgeOldTrash]
  rw [hsel]
  simp [removePaths]

/-! ## Claim C9: categorization fallback and validation -/

theorem fallback_category_mem (fileName : String) :
    categoryKeys.contains (fallbackCategorization fileName).category = true := by
  simp only [fallbackCategorization]
  split_ifs <;> rfl

theorem fallback_confidence_bounds (fileName : String) :
    0 ≤ (fallbackCategorization fileName).confidence ∧
      (fallbackCategorization fileName).confidence ≤ 1 := by
  simp only [fallbackCategorization]
  split_ifs <;> norm_num

theorem validate_category_mem (s : CategorySuggestion) :
    categoryKeys.contains (validateSuggestion s).category = true := by
  unfold validateSuggestion
  split_ifs with h
  · exact h
  · rfl

/-- C9 counterexample: a successfully parsed AI response with a valid
category keeps its confidence unvalidated, so `categorizeDocument` can
return a confidence outside `[0, 1]`. -/
theorem C9_counterexample :
    (categorizeDocument true (.parsed ⟨"financial", 2, "from AI", none⟩)
        "statement.pdf").confidence = 2 ∧
      ¬ (categorizeDocument true (.parsed ⟨"financial", 2, "from AI", none⟩)
        "statement.pdf").confidence ≤ 1 := by
  constructor
  · rfl
  · rw [show (categorizeDocument true (.parsed ⟨"financial", 2, "from AI", none⟩)
        "statement.pdf").confidence = 2 from rfl]
    norm_num

/-- C9 (amended): `categorizeDocument` never propagates an external-AI
failure — with no API key, or on any non-parsed outcome (HTTP error,
missing text, no JSON object), it returns the deterministic
`fallbackCategorization` result for the file name; every returned
suggestion has a category in the fixed set; every fallback result has
confidence in `[0, 1]`; and on a parsed response the returned confidence
is in `[0, 1]` provided the confidence carried by the AI response is
(the code passes a valid-category confidence through unvalidated). -/
theorem C9_categorize_amended (fileName : String) (hasKey : Bool)
    (outcome : GeminiOutcome) :
    (hasKey = false →
      categorizeDocument hasKey outcome fileName = fallbackCategorization fileName) ∧
    ((∀ s, outcome ≠ .parsed s) →
      categorizeDocument hasKey outcome fileName = fallbackCategorization fileName) ∧
    categoryKeys.contains (categorizeDocument hasKey outcome fileName).category
      = true ∧
    (0 ≤ (fallbackCategorization fileName).confidence ∧
      (fallbackCategorization fileName).confidence ≤ 1) ∧
    (∀ s, outcome = .parsed s → 0 ≤ s.confidence → s.confidence ≤ 1 →
      0 ≤ (categorizeDocument hasKey outcome fileName).confidence ∧
        (categorizeDocument hasKey outcome fileName).confidence ≤ 1) := by
  refine ⟨?_, ?_, ?_, fallback_confidence_bounds fileName, ?_⟩
  · intro h
    simp [categorizeDocument, h]
  · intro h
    cases hasKey with
    | false => simp [categorizeDocument]
    | true =>
      cases outcome with
      | parsed s => exact absurd rfl (h s)
      | httpError => rfl
      | noText => rfl
      | noJsonMatch => rfl
  · cases hasKey with
    | false => exact fallback_category_mem fileName
    | true =>
      cases outcome with
      | parsed s => exact validate_category_mem s
      | httpError => exact fallback_category_mem fileName
      | noText => exact fallback_category_mem fileName
      | noJsonMatch => exact fallback_category_mem fileName
  · intro s hout h0 h1
    subst hout
    cases hasKey with
    | false => exact fallback_confidence_bounds fileName
    | true =>
      show 0 ≤ (validateSuggestion s).confidence ∧
        (validateSuggestion s).confidence ≤ 1
      unfold validateSuggestion
      split_ifs
      · exact ⟨h0, h1⟩
      · constructor
        · have : (0 : ℚ) ≤ 3/10 := by norm_num
          exact this.trans (le_max_left _ _)
        · apply max_le
          · norm_num
          · linarith

/-- Witness for C9 (amended) at a concrete failing outcome and a concrete
parsed response. -/
theorem C9_witness :
    (false = false ∧
      (∀ s, GeminiOutcome.httpError ≠ GeminiOutcome.parsed s) ∧
      GeminiOutcome.parsed ⟨"contract_scan.pdf stuff", 1/2, "r", none⟩ =
        GeminiOutcome.parsed ⟨"contract_scan.pdf stuff", 1/2, "r", none⟩ ∧
      (0 : ℚ) ≤ 1/2 ∧ (1/2 : ℚ) ≤ 1) ∧
    (categorizeDocument false GeminiOutcome.httpError "bank_statement.pdf" =
      fallbackCategorization "bank_statement.pdf" ∧
    categorizeDocument true GeminiOutcome.httpError "bank_statement.pdf" =
      fallbackCategorization "bank_statement.pdf" ∧
    categoryKeys.contains (categorizeDocument true
      (.parsed ⟨"contract_scan.pdf stuff", 1/2, "r", none⟩)
      "bank_statement.pdf").category = true ∧
    (0 ≤ (categorizeDocument true
        (.parsed ⟨"contract_scan.pdf stuff", 1/2, "r", none⟩)
        "bank_statement.pdf").confidence ∧
      (categorizeDocument true
        (.parsed ⟨"contract_scan.pdf stuff", 1/2, "r", none⟩)
        "bank_statement.pdf").confidence ≤ 1)) := by
  have h1 := C9_categorize_amended "bank_statement.pdf" false GeminiOutcome.httpError
  have h2 := C9_categorize_amended "bank_statement.pdf" true GeminiOutcome.httpError
  have h3 := C9_categorize_amended "bank_statement.pdf" true
    (.parsed ⟨"contract_scan.pdf stuff", 1/2, "r", none⟩)
  refine ⟨⟨rfl, ?_, rfl, by norm_num, by norm_num⟩, h1.1 rfl, h2.2.1 ?_, h3.2.2.1, ?_⟩
  · intro s h
    cases h
  · intro s h
    cases h
  · exact h3.2.2.2.2 ⟨"contract_scan.pdf stuff", 1/2, "r", none⟩ rfl
      (by norm_num) (by norm_num)

/-! ## Claim C7: deleting a private document -/

/-- C7: evaluation of the private-delete path at a concrete state.  A
private document that was never trashed is listed active with category
`"private"` and UI id equal to its bare storage name; the private branch
of `handleDelete` then calls `deletePermanent` with that id, whose
`deleted_documents` fetch by id finds no row (`.single()` fails), so the
call errors out: no marker is created, but the storage object is NOT
removed and the document is still listed active afterwards, contrary to
the immediate permanent delete the specification describes. -/
theorem C7_private_delete_fails :
    listUserDocuments "u1" [⟨"u1/private/100_private_Secret.pdf", 5⟩] [] =
      [docEntryOf "u1" true ⟨"100_private_Secret.pdf", 5⟩] ∧
    (docEntryOf "u1" true ⟨"100_private_Secret.pdf", 5⟩).category = "private" ∧
    (documentOfEntry (docEntryOf "u1" true ⟨"100_private_Secret.pdf", 5⟩)).id =
      "100_private_Secret.pdf" ∧
    handleDeletePrivate "u1"
        (documentOfEntry (docEntryOf "u1" true ⟨"100_private_Secret.pdf", 5⟩))
        [⟨"u1/private/100_private_Secret.pdf", 5⟩] [] =
      .error "row fetch failed" ∧
    listUserDocuments "u1" [⟨"u1/private/100_private_Secret.pdf", 5⟩] [] ≠ [] := by
  refine ⟨by decide, by decide, by decide, rfl, by decide⟩

/-! ## Claim C1: deletion markers reconcile active and trash lists -/

/-- C1: for any marker row of the user, `listUserDocuments` excludes every
object whose name the marker records (no returned entry has that path),
while `listUserTrash` contains the corresponding item (exactly one when
the row ids are distinct, as the primary key guarantees); and once the
marker rows with that id are removed by `restoreFromTrash`, any listed
object passing the base filter whose name no remaining marker records is
returned again by `listUserDocuments` — over the same unchanged bucket,
so no re-upload to the object store is involved. -/
theorem C1_marker_reconciliation (userId : String) (bucket : List StorageFile)
    (deleted : List DeletedRow) (row : DeletedRow) (hrow : row ∈ deleted) :
    (∀ e ∈ listUserDocuments userId bucket deleted, e.path ≠ row.document_name) ∧
    (trashItemOf userId row ∈ listUserTrash userId deleted ∧
      (trashItemOf userId row).path = row.document_path ∧
      ((deleted.map DeletedRow.id).Nodup →
        (listUserTrash userId deleted).countP (fun t => t.id == row.id) = 1)) ∧
    (∀ (obj : ObjInfo) (pv : Bool),
      (obj, pv) ∈ listingAll userId bucket →
      passesBase obj = true →
      (∀ r ∈ deleted, r.id ≠ row.id → r.document_name ≠ obj.name) →
      docEntryOf userId pv obj ∈
        listUserDocuments userId bucket (restoreFromTrash row.id deleted)) := by
  refine ⟨?_, ⟨List.mem_map_of_mem _ hrow, rfl, ?_⟩, ?_⟩
  · intro e he
    simp only [listUserDocuments] at he
    obtain ⟨⟨o, pv⟩, hmem, rfl⟩ := List.mem_map.mp he
    have hfilt := (List.mem_filter.mp hmem).2
    unfold passesFilter at hfilt
    rw [Bool.and_eq_true] at hfilt
    have hnotmem : o.name ∉ deleted.map (fun r => r.document_name) := by
      simpa [List.contains, List.elem_eq_mem] using hfilt.2
    show (docEntryOf userId pv o).path ≠ row.document_name
    have hpath : (docEntryOf userId pv o).path = o.name := rfl
    rw [hpath]
    intro heq
    exact hnotmem (heq ▸ List.mem_map_of_mem _ hrow)
  · intro hnd
    unfold listUserTrash
    rw [List.countP_map]
    have hcomp : ((fun t : TrashItem => t.id == row.id) ∘ trashItemOf userId) =
        (fun r : DeletedRow => r.id == row.id) := by
      funext r
      rfl
    rw [hcomp]
    exact countP_unique_id deleted row hrow hnd
  · intro obj pv hmem hbase hother
    simp only [listUserDocuments]
    refine List.mem_map.mpr ⟨(obj, pv), List.mem_filter.mpr ⟨hmem, ?_⟩, rfl⟩
    unfold passesFilter
    rw [hbase, Bool.true_and]
    have hnm : obj.name ∉
        (restoreFromTrash row.id deleted).map (fun r => r.document_name) := by
      intro hmm
      obtain ⟨r, hr, hreq⟩ := List.mem_map.mp hmm
      unfold restoreFromTrash at hr
      have hr2 := List.mem_filter.mp hr
      have hne : r.id ≠ row.id := by simpa using hr2.2
      exact hother r hr2.1 hne hreq
    simpa [List.contains, List.elem_eq_mem] using hnm

/-- Witness for C1 at a one-object bucket with one marker row. -/
theorem C1_witness :
    ((⟨"m1", "9_financial_Tax.pdf", "9_financial_Tax.pdf", 0⟩ : DeletedRow) ∈
        [(⟨"m1", "9_financial_Tax.pdf", "9_financial_Tax.pdf", 0⟩ : DeletedRow)]) ∧
    ((∀ e ∈ listUserDocuments "u" [⟨"u/9_financial_Tax.pdf", 4⟩]
          [⟨"m1", "9_financial_Tax.pdf", "9_financial_Tax.pdf", 0⟩],
        e.path ≠ "9_financial_Tax.pdf") ∧
      (trashItemOf "u" ⟨"m1", "9_financial_Tax.pdf", "9_financial_Tax.pdf", 0⟩ ∈
          listUserTrash "u" [⟨"m1", "9_financial_Tax.pdf", "9_financial_Tax.pdf", 0⟩] ∧
        (listUserTrash "u"
            [⟨"m1", "9_financial_Tax.pdf", "9_financial_Tax.pdf", 0⟩]).countP
          (fun t => t.id == "m1") = 1) ∧
      docEntryOf "u" false ⟨"9_financial_Tax.pdf", 4⟩ ∈
        listUserDocuments "u" [⟨"u/9_financial_Tax.pdf", 4⟩]
          (restoreFromTrash "m1"
            [⟨"m1", "9_financial_Tax.pdf", "9_financial_Tax.pdf", 0⟩])) := by
  have hmain := C1_marker_reconciliation "u" [⟨"u/9_financial_Tax.pdf", 4⟩]
    [⟨"m1", "9_financial_Tax.pdf", "9_financial_Tax.pdf", 0⟩]
    ⟨"m1", "9_financial_Tax.pdf", "9_financial_Tax.pdf", 0⟩ (by decide)
  refine ⟨by decide, hmain.1, ⟨hmain.2.1.1, hmain.2.1.2.2 (by decide)⟩, ?_⟩
  exact hmain.2.2 ⟨"9_financial_Tax.pdf", 4⟩ false (by decide) (by decide)
    (by decide)

/-! ## Claim C10: entry paths are bare file names -/

/-- C10: every entry `listUserDocuments` returns carries as its `path` the
bare object file name — it contains no slash, so it is never of the
prefixed `{userId}[/private]/{...}` form — and a share record whose
stored `document_path` is such a bare name (absent verbatim from
storage) is still resolved by `loadDocument` through the normalized
`{user_id}/{basename}` fallback variant. -/
theorem C10_bare_filename_paths (userId : String) (bucket : List StorageFile)
    (deleted : List DeletedRow) (s : ShareRow) (store : List StorageFile)
    (hmiss : store.any (fun f => f.path == s.document_path) = false)
    (hslash : ∀ ch ∈ s.document_path.data, ch ≠ '/')
    (hhit : store.any
      (fun f => f.path == s.user_id ++ "/" ++ s.document_path) = true) :
    (∀ e ∈ listUserDocuments userId bucket deleted,
      strContains e.path "/" = false) ∧
    loadDocument store s =
      .resolved s ("signed/" ++ (s.user_id ++ "/" ++ s.document_path)) := by
  constructor
  · intro e he
    simp only [listUserDocuments] at he
    obtain ⟨⟨o, pv⟩, hmem, rfl⟩ := List.mem_map.mp he
    have hmem2 := (List.mem_filter.mp hmem).1
    have hns : ∀ ch ∈ o.name.data, ch ≠ '/' := by
      unfold listingAll at hmem2
      rcases List.mem_append.mp hmem2 with h | h
      · obtain ⟨o2, ho2, heq⟩ := List.mem_map.mp h
        cases heq
        exact listDir_no_slash bucket userId _ ho2
      · obtain ⟨o2, ho2, heq⟩ := List.mem_map.mp h
        cases heq
        exact listDir_no_slash bucket (userId ++ "/private") _ ho2
    show strContains (docEntryOf userId pv o).path "/" = false
    have hpath : (docEntryOf userId pv o).path = o.name := rfl
    rw [hpath]
    rw [Bool.eq_false_iff]
    intro hc
    have : '/' ∈ o.name.data := (hasSub_single '/' o.name.data).mp hc
    exact hns '/' this rfl
  · have h1 : createSignedUrl store s.document_path = none := by
      simp [createSignedUrl, hmiss]
    have h2 : dropLeadingSlashes s.document_path = s.document_path :=
      dropLeadingSlashes_no_slash _ hslash
    have h3 : lastSegment s.document_path = s.document_path :=
      lastSegment_no_slash _ hslash
    have h4 : createSignedUrl store (s.user_id ++ "/" ++ s.document_path) =
        some ("signed/" ++ (s.user_id ++ "/" ++ s.document_path)) := by
      simp [createSignedUrl, hhit]
    simp [loadDocument, h1, h2, h3, h4]

/-- Witness for C10 at a one-object store and a share holding the bare name. -/
theorem C10_witness :
    (([(⟨"u/7_financial_Doc.pdf", 2⟩ : StorageFile)].any
        (fun f => f.path ==
          (⟨"s1", "u", "7_financial_Doc.pdf", "tok", true, none, none, true, 0⟩
            : ShareRow).document_path) = false) ∧
      [(⟨"u/7_financial_Doc.pdf", 2⟩ : StorageFile)].any
        (fun f => f.path == "u" ++ "/" ++ "7_financial_Doc.pdf") = true) ∧
    ((∀ e ∈ listUserDocuments "u" [⟨"u/7_financial_Doc.pdf", 2⟩] [],
        strContains e.path "/" = false) ∧
      loadDocument [⟨"u/7_financial_Doc.pdf", 2⟩]
          ⟨"s1", "u", "7_financial_Doc.pdf", "tok", true, none, none, true, 0⟩ =
        .resolved ⟨"s1", "u", "7_financial_Doc.pdf", "tok", true, none, none, true, 0⟩
          ("signed/" ++ ("u" ++ "/" ++ "7_financial_Doc.pdf"))) := by
  have hmain := C10_bare_filename_paths "u" [⟨"u/7_financial_Doc.pdf", 2⟩] []
    ⟨"s1", "u", "7_financial_Doc.pdf", "tok", true, none, none, true, 0⟩
    [⟨"u/7_financial_Doc.pdf", 2⟩] (by decide) (by decide) (by decide)
  exact ⟨⟨by decide, by decide⟩, hmain.1, hmain.2⟩

/-! ## Claim C5: helper lemmas on characters and the parsed entry -/

theorem us_data : ("_" : String).data = ['_'] := rfl

theorem dot_data : ("." : String).data = ['.'] := rfl

theorem digit_facts (ch : Char) (h : ch.isDigit = true) :
    ch ≠ '_' ∧ ch ≠ '/' ∧ ch ≠ 'p' := by
  refine ⟨?_, ?_, ?_⟩ <;> (intro he; rw [he] at h; exact absurd h (by decide))

theorem alnum_or_us_facts (ch : Char) (h : jsAlnum ch = true ∨ ch = '_') :
    ch ≠ '.' ∧ ch ≠ '/' := by
  rcases h with h | h
  · constructor <;> (intro he; rw [he] at h; exact absurd h (by decide))
  · subst h
    constructor <;> decide

theorem wordChar_ne_slash (ch : Char) (h : isWordChar ch = true) : ch ≠ '/' := by
  intro he
  rw [he] at h
  exact absurd h (by decide)

theorem sanitize_chars (s : String) :
    ∀ ch ∈ (sanitizeName s).data, jsAlnum ch = true ∨ ch = '_' := by
  intro ch hch
  simp only [sanitizeName] at hch
  obtain ⟨x, -, hmap⟩ := List.mem_map.mp hch
  by_cases hj : jsAlnum x = true
  · left
    rw [← hmap, if_pos hj]
    exact hj
  · right
    rw [← hmap, if_neg hj]

theorem docEntryOf_category_eq (userId : String) (obj : ObjInfo) :
    (docEntryOf userId false obj).category =
      if 3 ≤ (splitCh '_' obj.name.data).length
      then String.mk ((splitCh '_' obj.name.data).getD 1 []) else "other" := by
  simp [docEntryOf]

theorem docEntryOf_name_eq (userId : String) (obj : ObjInfo) :
    (docEntryOf userId false obj).name =
      if 3 ≤ (splitCh '_' obj.name.data).length
      then underscoresToSpaces (String.mk (stripExtWord
        (joinCh '_' ((splitCh '_' obj.name.data).drop 2))))
      else obj.name := by
  simp [docEntryOf]

/-- C5: uploading a non-private document with display name `n` and
category `c` stores it at `{userId}/{ts}_{c}_{sanitized(n)}.{ext}`, and
`listUserDocuments` parses that file name back to category `c` and to
the display name `n` with underscores rendered as spaces (a listing of
a bucket holding exactly that object returns exactly that entry); a
file name splitting into fewer than three underscore-separated segments
parses to category `"other"`. -/
theorem C5_path_roundtrip (userId fileName n c ts : String) (fileSize : Nat)
    (bucket : List StorageFile)
    (hts1 : ts.data ≠ []) (hts2 : ∀ ch ∈ ts.data, ch.isDigit = true)
    (hc : ∀ ch ∈ c.data, ch ≠ '_') (hc2 : ∀ ch ∈ c.data, ch ≠ '/')
    (hn : ∀ ch ∈ n.data, jsAlnum ch = true ∨ ch = '_')
    (hext1 : (extOf fileName).data ≠ [])
    (hext2 : ∀ ch ∈ (extOf fileName).data, isWordChar ch = true)
    (hsz : 0 < fileSize)
    (hnotrash : strContains
      (uploadFileName ts c (sanitizeName n) (extOf fileName)) "_trash_" = false)
    (hfresh : bucket.any (fun f => f.path ==
      userId ++ "/" ++ uploadFileName ts c (sanitizeName n) (extOf fileName))
      = false) :
    uploadDocument userId fileName fileSize n c false ts bucket =
      .ok (bucket ++
        [⟨userId ++ "/" ++ uploadFileName ts c (sanitizeName n) (extOf fileName),
          fileSize⟩],
        userId ++ "/" ++ uploadFileName ts c (sanitizeName n) (extOf fileName)) ∧
    (docEntryOf userId false
      ⟨uploadFileName ts c (sanitizeName n) (extOf fileName), fileSize⟩).category
      = c ∧
    (docEntryOf userId false
      ⟨uploadFileName ts c (sanitizeName n) (extOf fileName), fileSize⟩).name
      = underscoresToSpaces n ∧
    listUserDocuments userId
      [⟨userId ++ "/" ++ uploadFileName ts c (sanitizeName n) (extOf fileName),
        fileSize⟩] [] =
      [docEntryOf userId false
        ⟨uploadFileName ts c (sanitizeName n) (extOf fileName), fileSize⟩] ∧
    (∀ obj : ObjInfo, (splitCh '_' obj.name.data).length < 3 →
      (docEntryOf userId false obj).category = "other") := by
  have hts_ne_us : ∀ ch ∈ ts.data, ch ≠ '_' :=
    fun ch h => (digit_facts ch (hts2 ch h)).1
  have hsafe_chars := sanitize_chars n
  have hsafe_ne_dot : ∀ ch ∈ (sanitizeName n).data, ch ≠ '.' :=
    fun ch h => (alnum_or_us_facts ch (hsafe_chars ch h)).1
  have hdata : (uploadFileName ts c (sanitizeName n) (extOf fileName)).data =
      ts.data ++ '_' :: (c.data ++ '_' ::
        ((sanitizeName n).data ++ '.' :: (extOf fileName).data)) := by
    simp [uploadFileName, data_append, us_data, dot_data, List.append_assoc]
  have hparts : splitCh '_'
      (uploadFileName ts c (sanitizeName n) (extOf fileName)).data =
      ts.data :: c.data :: splitCh '_'
        ((sanitizeName n).data ++ '.' :: (extOf fileName).data) := by
    rw [hdata, splitCh_append_sep '_' ts.data _ hts_ne_us,
      splitCh_append_sep '_' c.data _ hc]
  have hlen : 3 ≤ (splitCh '_'
      (uploadFileName ts c (sanitizeName n) (extOf fileName)).data).length := by
    rw [hparts]
    have := List.length_pos.mpr (splitCh_ne_nil '_'
      ((sanitizeName n).data ++ '.' :: (extOf fileName).data))
    simp only [List.length_cons]
    omega
  have hcat : (docEntryOf userId false
      ⟨uploadFileName ts c (sanitizeName n) (extOf fileName), fileSize⟩).category
      = c := by
    rw [docEntryOf_category_eq, if_pos hlen, hparts]
    rfl
  have hname : (docEntryOf userId false
      ⟨uploadFileName ts c (sanitizeName n) (extOf fileName), fileSize⟩).name
      = underscoresToSpaces n := by
    rw [docEntryOf_name_eq, if_pos hlen, hparts]
    show underscoresToSpaces (String.mk (stripExtWord (joinCh '_'
      (splitCh '_' ((sanitizeName n).data ++ '.' :: (extOf fileName).data)))))
        = underscoresToSpaces n
    rw [joinCh_splitCh,
      stripExtWord_append _ _ hsafe_ne_dot hext1 (List.all_eq_true.mpr hext2),
      mk_data, sanitizeName_eq_self n hn]
  have hfname_no_slash : ∀ ch ∈
      (uploadFileName ts c (sanitizeName n) (extOf fileName)).data, ch ≠ '/' := by
    rw [hdata]
    intro ch hch
    simp only [List.mem_append, List.mem_cons] at hch
    rcases hch with h | h | h | h | h | h | h
    · exact (digit_facts ch (hts2 ch h)).2.1
    · subst h; decide
    · exact hc2 ch h
    · subst h; decide
    · exact (alnum_or_us_facts ch (hsafe_chars ch h)).2
    · subst h; decide
    · exact wordChar_ne_slash ch (hext2 ch h)
  have hfname_ne_nil :
      (uploadFileName ts c (sanitizeName n) (extOf fileName)).data ≠ [] := by
    rw [hdata]
    obtain ⟨d, ds, hds⟩ := List.exists_cons_of_ne_nil hts1
    rw [hds]
    simp
  have hFdata : (userId ++ "/" ++
      uploadFileName ts c (sanitizeName n) (extOf fileName)).data =
      (userId.data ++ ['/']) ++
        (uploadFileName ts c (sanitizeName n) (extOf fileName)).data := by
    simp [data_append, List.append_assoc]
  have hdropF : dropPre (userId.data ++ ['/'])
      (userId ++ "/" ++ uploadFileName ts c (sanitizeName n) (extOf fileName)).data
      = some (uploadFileName ts c (sanitizeName n) (extOf fileName)).data := by
    rw [hFdata]
    exact dropPre_self _ _
  have hlist1 : listDir
      [⟨userId ++ "/" ++ uploadFileName ts c (sanitizeName n) (extOf fileName),
        fileSize⟩] userId =
      [⟨uploadFileName ts c (sanitizeName n) (extOf fileName), fileSize⟩] := by
    simp only [listDir, List.filterMap_cons, List.filterMap_nil, hdropF]
    rw [if_pos ⟨hfname_ne_nil, List.all_eq_true.mpr
      (fun ch hch => by simpa using hfname_no_slash ch hch)⟩]
  have hlist2 : listDir
      [⟨userId ++ "/" ++ uploadFileName ts c (sanitizeName n) (extOf fileName),
        fileSize⟩] (userId ++ "/private") = [] := by
    have hpat : (userId ++ "/private").data ++ ['/'] =
        (userId.data ++ ['/']) ++ ("private".data ++ ['/']) := by
      simp [data_append, List.append_assoc,
        show ("/private" : String).data = '/' :: "private".data from rfl]
    simp only [listDir, List.filterMap_cons, List.filterMap_nil]
    rw [hpat, hFdata, dropPre_append]
    obtain ⟨d, ds, hds⟩ := List.exists_cons_of_ne_nil hts1
    have hfd : (uploadFileName ts c (sanitizeName n) (extOf fileName)).data =
        d :: (ds ++ '_' :: (c.data ++ '_' ::
          ((sanitizeName n).data ++ '.' :: (extOf fileName).data))) := by
      rw [hdata, hds]
      simp
    rw [hfd]
    have hd : d.isDigit = true := hts2 d (by rw [hds]; exact List.mem_cons_self d ds)
    have hdp : 'p' ≠ d := fun he => (digit_facts d hd).2.2 he.symm
    rw [show ("private".data ++ ['/']) = 'p' :: ("rivate".data ++ ['/']) from rfl]
    simp only [dropPre, if_neg hdp]
  have hdot : strContains
      (uploadFileName ts c (sanitizeName n) (extOf fileName)) "." = true := by
    unfold strContains
    rw [dot_data]
    apply (hasSub_single '.' _).mpr
    rw [hdata]
    simp
  have hpassB : passesBase
      ⟨uploadFileName ts c (sanitizeName n) (extOf fileName), fileSize⟩ = true := by
    unfold passesBase
    rw [show (⟨uploadFileName ts c (sanitizeName n) (extOf fileName), fileSize⟩
      : ObjInfo).name = uploadFileName ts c (sanitizeName n) (extOf fileName)
      from rfl]
    rw [hdot, hnotrash]
    simp [hsz]
  refine ⟨?_, hcat, hname, ?_, ?_⟩
  · simp [uploadDocument, hfresh]
  · simp only [listUserDocuments, listingAll, hlist1, hlist2, List.map_cons,
      List.map_nil, List.append_nil, List.filter_cons, List.filter_nil]
    rw [show passesFilter []
        ⟨uploadFileName ts c (sanitizeName n) (extOf fileName), fileSize⟩ = true by
      unfold passesFilter
      rw [hpassB]
      simp [List.contains]]
    simp
  · intro obj hlt
    have hnle : ¬ (3 ≤ (splitCh '_' obj.name.data).length) := by omega
    rw [docEntryOf_category_eq, if_neg hnle]

/-- Witness for C5 at the scenario of the specification: uploading the
file `Resume_2024.pdf` under the name `Resume_2024` with category
`education` yields the stored name
`1700000000000_education_Resume_2024.pdf`, parsed back to category
`education` and display name `Resume 2024`. -/
theorem C5_witness :
    (("1700000000000" : String).data ≠ [] ∧
      (∀ ch ∈ ("1700000000000" : String).data, ch.isDigit = true) ∧
      (∀ ch ∈ ("education" : String).data, ch ≠ '_') ∧
      (∀ ch ∈ ("education" : String).data, ch ≠ '/') ∧
      (∀ ch ∈ ("Resume_2024" : String).data, jsAlnum ch = true ∨ ch = '_') ∧
      (extOf "Resume_2024.pdf").data ≠ [] ∧
      (∀ ch ∈ (extOf "Resume_2024.pdf").data, isWordChar ch = true) ∧
      0 < 1 ∧
      strContains (uploadFileName "1700000000000" "education"
        (sanitizeName "Resume_2024") (extOf "Resume_2024.pdf")) "_trash_"
        = false ∧
      ([] : List StorageFile).any (fun f => f.path == "u" ++ "/" ++
        uploadFileName "1700000000000" "education" (sanitizeName "Resume_2024")
          (extOf "Resume_2024.pdf")) = false) ∧
    (docEntryOf "u" false
      ⟨uploadFileName "1700000000000" "education" (sanitizeName "Resume_2024")
        (extOf "Resume_2024.pdf"), 1⟩).category = "education" ∧
    (docEntryOf "u" false
      ⟨uploadFileName "1700000000000" "education" (sanitizeName "Resume_2024")
        (extOf "Resume_2024.pdf"), 1⟩).name = underscoresToSpaces "Resume_2024" ∧
    listUserDocuments "u"
      [⟨"u" ++ "/" ++ uploadFileName "1700000000000" "education"
        (sanitizeName "Resume_2024") (extOf "Resume_2024.pdf"), 1⟩] [] =
      [docEntryOf "u" false
        ⟨uploadFileName "1700000000000" "education" (sanitizeName "Resume_2024")
          (extOf "Resume_2024.pdf"), 1⟩] ∧
    underscoresToSpaces "Resume_2024" = "Resume 2024" ∧
    uploadFileName "1700000000000" "education" (sanitizeName "Resume_2024")
      (extOf "Resume_2024.pdf") = "1700000000000_education_Resume_2024.pdf" := by
  have hthm := C5_path_roundtrip "u" "Resume_2024.pdf" "Resume_2024" "education"
    "1700000000000" 1 [] (by decide) (by decide) (by decide) (by decide)
    (by decide) (by decide) (by decide) (by decide) (by decide) (by decide)
  exact ⟨⟨by decide, by decide, by decide, by decide, by decide, by decide,
      by decide, by decide, by decide, by decide⟩,
    hthm.2.1, hthm.2.2.1, hthm.2.2.2.1, by decide, by decide⟩

end DigiLocker
